import Mathlib

/-!
Verification of the annotation-session state machine and dataset-assembly
pipeline of `pipeline_yolo` (file `pipeline_yolo_20260118010616.py`).

The Python dict `all_annotations` (image path → list of bounding boxes) is
embedded as an association list with insertion-order semantics, mirroring
Python 3.7+ dict behaviour: assignment to an existing key updates the value
in place, assignment to a fresh key appends at the end, `del` removes the
entry.  Bounding boxes are the dicts built at `on_release`
(lines 392-400 of the source): integer coordinates `x1 y1 x2 y2`, the source
image dimensions `width`/`height`, and the integer class id.
-/

/-- A bounding box as stored in `annotations_multiclass.json`:
the dict `{'x1':…,'y1':…,'x2':…,'y2':…,'width':…,'height':…,'class':…}`
built at source lines 392-400.  The Python key `class` is rendered `cls`. -/
structure BBox where
  x1 : Int
  y1 : Int
  x2 : Int
  y2 : Int
  width : Int
  height : Int
  cls : Int
deriving DecidableEq, Repr

/-- The annotation store `all_annotations`: a Python dict from image path to
box list, embedded as an insertion-ordered association list. -/
abbrev Store := List (String × List BBox)

/-- Python dict membership `k in d`. -/
def storeMem (s : Store) (k : String) : Bool :=
  s.any (fun p => p.1 = k)

/-- Python dict read `d.get(k)` / `d[k]`. -/
def storeLookup (s : Store) (k : String) : Option (List BBox) :=
  (s.find? (fun p => p.1 = k)).map (fun p => p.2)

/-- Python dict assignment `d[k] = v`: update in place when the key exists,
otherwise append the new entry at the end. -/
def storeSet (s : Store) (k : String) (v : List BBox) : Store :=
  if storeMem s k then
    s.map (fun p => if p.1 = k then (k, v) else p)
  else
    s ++ [(k, v)]

/-- Python dict deletion `del d[k]`. -/
def storeDel (s : Store) (k : String) : Store :=
  s.filter (fun p => ¬ (p.1 = k))

/-- The mutable annotator state relevant to the store-mutating operations:
`self.all_annotations`, `self.current_image_path`, `self.current_bboxes`. -/
structure AnnState where
  annotations : Store
  currentImage : String
  currentBboxes : List BBox
deriving DecidableEq, Repr

/-- Outcome of one store-mutating handler: the new state, whether
`save_annotations` was called, and the message box text shown, if any. -/
structure StepOut where
  state : AnnState
  saved : Bool
  notice : Option String
deriving DecidableEq, Repr

/-- `delete_last_bbox` (source lines 433-448): if `current_bboxes` is empty,
show "No hay bboxes para borrar" and return without mutating or saving;
otherwise pop the last box, write the remaining list back to the dict when
non-empty, delete the image's key when the pop emptied the list, and save. -/
def delete_last_bbox (s : AnnState) : StepOut :=
  if s.currentBboxes = [] then
    { state := s, saved := false, notice := some "No hay bboxes para borrar" }
  else
    let bs := s.currentBboxes.dropLast
    let ann :=
      if bs ≠ [] then storeSet s.annotations s.currentImage bs
      else if storeMem s.annotations s.currentImage then
        storeDel s.annotations s.currentImage
      else s.annotations
    { state := { s with currentBboxes := bs, annotations := ann },
      saved := true, notice := none }

/-- `clear_all_annotations` (source lines 459-471): a no-op with an
informational message when `current_bboxes` is empty; otherwise, when the
user confirms the dialog, empty the list, delete the image's key, and save. -/
def clear_all_annotations (confirmed : Bool) (s : AnnState) : StepOut :=
  if s.currentBboxes = [] then
    { state := s, saved := false, notice := some "Esta imagen no tiene anotaciones" }
  else if confirmed then
    let ann :=
      if storeMem s.annotations s.currentImage then
        storeDel s.annotations s.currentImage
      else s.annotations
    { state := { s with currentBboxes := [], annotations := ann },
      saved := true, notice := none }
  else
    { state := s, saved := false, notice := none }

/-- The store mutation of a successful `on_release` (source lines 402-405,
429): append the new box to `current_bboxes` and write the full updated list
to `all_annotations[current_image_path]`, then save. -/
def commit_bbox (b : BBox) (s : AnnState) : StepOut :=
  let bs := s.currentBboxes ++ [b]
  let ann := storeSet s.annotations s.currentImage bs
  { state := { s with currentBboxes := bs, annotations := ann },
    saved := true, notice := none }

/-- The `current_bboxes` reload performed by `load_image` when moving to an
image (source lines 296-300): the stored list if the image is annotated,
otherwise the empty list. -/
def select_image (k : String) (s : AnnState) : AnnState :=
  { s with currentImage := k,
           currentBboxes := (storeLookup s.annotations k).getD [] }

/-- One store-mutating operation of the annotation session. -/
inductive AnnOp where
  | commitBox (b : BBox)
  | deleteLast
  | clearAll (confirmed : Bool)
  | selectImage (k : String)
deriving DecidableEq, Repr

/-- Apply one operation to the annotator state. -/
def applyAnnOp (s : AnnState) : AnnOp → AnnState
  | .commitBox b => (commit_bbox b s).state
  | .deleteLast => (delete_last_bbox s).state
  | .clearAll c => (clear_all_annotations c s).state
  | .selectImage k => select_image k s

/-- Apply a sequence of operations left to right. -/
def applyAnnOps (s : AnnState) : List AnnOp → AnnState
  | [] => s
  | op :: ops => applyAnnOps (applyAnnOp s op) ops

/-- The store invariant: no image key is mapped to an empty box list. -/
def StoreInv (st : Store) : Prop :=
  ∀ kv ∈ st, kv.2 ≠ ([] : List BBox)

instance (st : Store) : Decidable (StoreInv st) := by
  unfold StoreInv; infer_instance

theorem storeInv_storeSet {st : Store} {k : String} {v : List BBox}
    (hinv : StoreInv st) (hv : v ≠ []) : StoreInv (storeSet st k v) := by
  intro kv hkv
  unfold storeSet at hkv
  split at hkv
  · rcases List.mem_map.mp hkv with ⟨p, hp, hpe⟩
    by_cases h : p.1 = k
    · simp only [if_pos h] at hpe
      rw [← hpe]
      exact hv
    · simp only [if_neg h] at hpe
      rw [← hpe]
      exact hinv p hp
  · rcases List.mem_append.mp hkv with h | h
    · exact hinv kv h
    · simp only [List.mem_singleton] at h
      rw [h]
      exact hv

theorem storeInv_storeDel {st : Store} {k : String}
    (hinv : StoreInv st) : StoreInv (storeDel st k) := by
  intro kv hkv
  exact hinv kv (List.mem_filter.mp hkv).1

theorem storeLookup_storeDel (st : Store) (k : String) :
    storeLookup (storeDel st k) k = none := by
  unfold storeLookup
  rw [List.find?_eq_none.mpr]
  · rfl
  · intro p hp
    have h2 := (List.mem_filter.mp hp).2
    simp only [decide_not, Bool.not_eq_eq_eq_not, Bool.not_true,
      decide_eq_false_iff_not] at h2
    simp only [decide_eq_true_eq]
    exact h2

theorem storeLookup_eq_none_of_not_mem {st : Store} {k : String}
    (h : storeMem st k = false) : storeLookup st k = none := by
  unfold storeMem at h
  unfold storeLookup
  rw [List.find?_eq_none.mpr]
  · rfl
  · intro p hp
    have := List.any_eq_false.mp h p hp
    simpa using this

theorem storeInv_applyAnnOp {s : AnnState} (op : AnnOp)
    (hinv : StoreInv s.annotations) : StoreInv (applyAnnOp s op).annotations := by
  cases op with
  | commitBox b =>
    simp only [applyAnnOp, commit_bbox]
    exact storeInv_storeSet hinv (by simp)
  | deleteLast =>
    simp only [applyAnnOp, delete_last_bbox]
    split
    · exact hinv
    · split
      · exact storeInv_storeSet hinv (by assumption)
      · split
        · exact storeInv_storeDel hinv
        · exact hinv
  | clearAll c =>
    simp only [applyAnnOp, clear_all_annotations]
    split
    · exact hinv
    · split
      · split
        · exact storeInv_storeDel hinv
        · exact hinv
      · exact hinv
  | selectImage k =>
    exact hinv

/-- C1: in every state reachable by any sequence of box-commit (`put`),
`deleteLast` and `clearAll` operations from a state whose store satisfies the
invariant, no image key is mapped to an empty box list; and deleting the last
remaining box of an image removes that image's key from the store entirely
(its lookup afterwards is `none`, the unannotated state). -/
theorem store_never_holds_empty_list
    (ops : List AnnOp) (s : AnnState) (hinv : StoreInv s.annotations) :
    StoreInv (applyAnnOps s ops).annotations ∧
    (∀ t : AnnState, t.currentBboxes.length = 1 →
      storeLookup (applyAnnOp t AnnOp.deleteLast).annotations t.currentImage
        = none) := by
  constructor
  · induction ops generalizing s with
    | nil => exact hinv
    | cons op rest ih => exact ih _ (storeInv_applyAnnOp op hinv)
  · intro t ht
    rcases List.length_eq_one.mp ht with ⟨b, hb⟩
    by_cases hm : storeMem t.annotations t.currentImage = true
    · simp [applyAnnOp, delete_last_bbox, hb, hm, storeLookup_storeDel]
    · simp [applyAnnOp, delete_last_bbox, hb, hm,
        storeLookup_eq_none_of_not_mem (by simpa using hm)]

/-- Witness for C1 at a concrete operation sequence and start state. -/
theorem store_never_holds_empty_list_witness :
    StoreInv (applyAnnOps
        { annotations := [], currentImage := "a.jpg", currentBboxes := [] }
        [AnnOp.commitBox ⟨0, 0, 50, 50, 100, 100, 0⟩, AnnOp.deleteLast,
         AnnOp.clearAll true]).annotations ∧
    (∀ t : AnnState, t.currentBboxes.length = 1 →
      storeLookup (applyAnnOp t AnnOp.deleteLast).annotations t.currentImage
        = none) :=
  store_never_holds_empty_list _ _ (by decide)

/-- C10: calling `delete_last_bbox` when the current image's box list is empty
is a complete no-op: the state is unchanged, no save happens, and the
"no bboxes to delete" notice is reported. -/
theorem delete_last_on_empty_is_noop (s : AnnState)
    (h : s.currentBboxes = []) :
    delete_last_bbox s =
      { state := s, saved := false,
        notice := some "No hay bboxes para borrar" } := by
  unfold delete_last_bbox
  simp [h]

/-- Witness for C10 at a concrete state with no boxes. -/
theorem delete_last_on_empty_is_noop_witness :
    delete_last_bbox
        { annotations := [("b.jpg", [⟨1, 1, 20, 20, 30, 30, 1⟩])],
          currentImage := "a.jpg", currentBboxes := [] } =
      { state := { annotations := [("b.jpg", [⟨1, 1, 20, 20, 30, 30, 1⟩])],
                   currentImage := "a.jpg", currentBboxes := [] },
        saved := false, notice := some "No hay bboxes para borrar" } :=
  delete_last_on_empty_is_noop _ rfl

/-- Python `int(x)` applied to the (rational-modelled) product of a
coordinate and a scale factor: truncation toward zero. -/
def truncRat (q : ℚ) : Int :=
  q.num.tdiv (q.den : Int)

/-- The per-image display geometry computed by `load_image`
(source lines 275-286): source dimensions and the derived scale factors
`scale_x = original_width / display_width`,
`scale_y = original_height / display_height`. -/
structure Geom where
  origW : Int
  origH : Int
  scaleX : ℚ
  scaleY : ℚ
deriving DecidableEq, Repr

/-- The drag-interaction state: `start_x`/`start_y` are `None` when idle
(source lines 119-120, 367) and hold the press point while dragging. -/
inductive Gesture where
  | idle
  | dragging (startX startY : Int)
deriving DecidableEq, Repr

/-- Outcome of a release event: annotator state, interaction state, whether
`save_annotations` ran, and the message box text shown, if any. -/
structure ReleaseOut where
  state : AnnState
  gesture : Gesture
  saved : Bool
  notice : Option String
deriving DecidableEq, Repr

/-- `on_release` (source lines 365-429): ignore the event when no drag is in
progress; otherwise normalize the dragged rectangle with min/max, reject it
with a warning when either side is under 10 display pixels, and otherwise
convert the corners to source coordinates with `int(c * scale)`, build the
box dict with the selected class, commit it to the store, and save. -/
def on_release (g : Geom) (selCls : Int) (gest : Gesture)
    (endX endY : Int) (s : AnnState) : ReleaseOut :=
  match gest with
  | .idle => { state := s, gesture := .idle, saved := false, notice := none }
  | .dragging startX startY =>
    let x1 := min startX endX
    let x2 := max startX endX
    let y1 := min startY endY
    let y2 := max startY endY
    if |x2 - x1| < 10 ∨ |y2 - y1| < 10 then
      { state := s, gesture := .idle, saved := false,
        notice := some "Dibuja un rectángulo más grande" }
    else
      let b : BBox :=
        { x1 := truncRat ((x1 : ℚ) * g.scaleX)
          y1 := truncRat ((y1 : ℚ) * g.scaleY)
          x2 := truncRat ((x2 : ℚ) * g.scaleX)
          y2 := truncRat ((y2 : ℚ) * g.scaleY)
          width := g.origW, height := g.origH, cls := selCls }
      let out := commit_bbox b s
      { state := out.state, gesture := .idle, saved := out.saved,
        notice := none }

/-- C2: a drag whose normalized display rectangle has a side shorter than 10
display pixels creates no box: the handler returns to idle with the
"too small" warning, the annotator state (and with it the store) is exactly
the input state, and no save occurs. -/
theorem small_drag_never_mutates_store (g : Geom) (selCls : Int)
    (startX startY endX endY : Int) (s : AnnState)
    (hsmall : |max startX endX - min startX endX| < 10 ∨
      |max startY endY - min startY endY| < 10) :
    on_release g selCls (.dragging startX startY) endX endY s =
      { state := s, gesture := .idle, saved := false,
        notice := some "Dibuja un rectángulo más grande" } := by
  unfold on_release
  simp [hsmall]

/-- Witness for C2 at a concrete 5-pixel-wide drag. -/
theorem small_drag_never_mutates_store_witness :
    on_release ⟨1000, 800, 2, 2⟩ 1 (.dragging 0 0) 5 100
        { annotations := [], currentImage := "a.jpg", currentBboxes := [] } =
      { state := { annotations := [], currentImage := "a.jpg",
                   currentBboxes := [] },
        gesture := .idle, saved := false,
        notice := some "Dibuja un rectángulo más grande" } :=
  small_drag_never_mutates_store _ _ _ _ _ _ _ (by decide)

/-- `redraw_all_bboxes` (source lines 335-338) maps a source coordinate to
display space by dividing by the scale factor. -/
def toDisplay (p : Int) (scale : ℚ) : ℚ :=
  (p : ℚ) / scale

/-- `on_release` (source lines 386-389) maps a display coordinate to source
space with `int(c * scale)`. -/
def toSource (d : ℚ) (scale : ℚ) : Int :=
  truncRat (d * scale)

theorem truncRat_intCast (n : Int) : truncRat (n : ℚ) = n := by
  unfold truncRat
  simp [Rat.num_intCast, Rat.den_intCast]

/-- C6: for a source coordinate `p` inside the image bounds and the
downscale-only scale factor `W / D` (display dimension `D`, source dimension
`W`, `0 < D ≤ W`), mapping to display space and back to source space recovers
`p` to within one pixel. -/
theorem geometry_round_trip (W D p : Int) (hD : 0 < D) (hWD : D ≤ W)
    (hp0 : 0 ≤ p) (hpW : p ≤ W) :
    |toSource (toDisplay p ((W : ℚ) / (D : ℚ))) ((W : ℚ) / (D : ℚ)) - p| ≤ 1 := by
  have hW : (0 : Int) < W := lt_of_lt_of_le hD hWD
  have hs : ((W : ℚ) / (D : ℚ)) ≠ 0 := by
    apply div_ne_zero
    · exact_mod_cast hW.ne'
    · exact_mod_cast hD.ne'
  unfold toSource toDisplay
  rw [div_mul_cancel₀ _ hs, truncRat_intCast]
  simp

/-- Witness for C6 at `W = 1000`, `D = 900`, `p = 567`. -/
theorem geometry_round_trip_witness :
    |toSource (toDisplay 567 ((1000 : ℚ) / (900 : ℚ)))
        ((1000 : ℚ) / (900 : ℚ)) - 567| ≤ 1 :=
  geometry_round_trip 1000 900 567 (by decide) (by decide) (by decide)
    (by decide)

/-- `TRAIN_SPLIT = 0.8` (source line 52).  The Python float `0.8` is
modelled as the exact rational `8/10`; for the dataset sizes at play,
`int(n * 0.8)` on binary doubles agrees with the exact rational value. -/
def TRAIN_SPLIT : ℚ := 8 / 10

/-- The split cut `int(len(paths) * TRAIN_SPLIT)` (source lines 609, 685). -/
def splitIndex (n : ℕ) : ℕ :=
  (truncRat ((n : ℚ) * TRAIN_SPLIT)).toNat

/-- The train/validation partition computed by `process_annotations`
(source lines 600-611) on the already-shuffled list of annotated image keys:
fewer than 10 images uses the whole list for both sets, otherwise the list
is cut at `splitIndex`, prefix to train, rest to validation. -/
def process_annotations_split (shuffled : List String) :
    List String × List String :=
  if shuffled.length < 10 then (shuffled, shuffled)
  else (shuffled.take (splitIndex shuffled.length),
        shuffled.drop (splitIndex shuffled.length))

/-- The background partition of `copy_background_images`
(source lines 682-687) on the shuffled background list: always cut at
`int(len * split)` with `split = 0.8`, no small-sample fallback. -/
def copy_background_split (bg : List String) : List String × List String :=
  (bg.take (splitIndex bg.length), bg.drop (splitIndex bg.length))

theorem truncRat_eq_floor {q : ℚ} (h : 0 ≤ q) : truncRat q = ⌊q⌋ := by
  unfold truncRat
  rw [Int.tdiv_eq_ediv (Rat.num_nonneg.mpr h) (by positivity), Rat.floor_def]

theorem splitIndex_intCast (n : ℕ) :
    (splitIndex n : ℤ) = ⌊(n : ℚ) * TRAIN_SPLIT⌋ := by
  unfold splitIndex
  rw [truncRat_eq_floor (by unfold TRAIN_SPLIT; positivity)]
  refine Int.toNat_of_nonneg ?_
  refine Int.floor_nonneg.mpr ?_
  unfold TRAIN_SPLIT
  positivity

theorem splitIndex_twenty : splitIndex 20 = 16 := by
  unfold splitIndex TRAIN_SPLIT
  have h : ((20 : ℕ) : ℚ) * (8 / 10) = ((16 : ℤ) : ℚ) := by norm_num
  rw [h, truncRat_intCast]
  rfl

theorem splitIndex_le (n : ℕ) : splitIndex n ≤ n := by
  have h := splitIndex_intCast n
  have h2 : ((n : ℚ) * TRAIN_SPLIT) ≤ ((n : ℕ) : ℚ) := by
    unfold TRAIN_SPLIT
    nlinarith [show (0 : ℚ) ≤ (n : ℚ) from by positivity]
  have hle : ⌊(n : ℚ) * TRAIN_SPLIT⌋ ≤ (n : ℤ) :=
    le_of_le_of_eq (Int.floor_le_floor h2) (Int.floor_natCast n)
  omega

/-- C3: for the shuffled key list of the annotation mapping, fewer than 10
images yields train = val = the entire list (no partition); at least 10
images cuts the shuffled list at exactly `⌊splitRatio * N⌋` with
`splitRatio = 0.8`, the prefix being train and the remainder validation; in
particular 20 images yield 16 train and 4 validation images, disjoint. -/
theorem dataset_split_correct (l : List String) (hnd : l.Nodup)
    (hne : l ≠ []) :
    (l.length < 10 → process_annotations_split l = (l, l)) ∧
    (10 ≤ l.length →
      (splitIndex l.length : ℤ) = ⌊(l.length : ℚ) * TRAIN_SPLIT⌋ ∧
      (process_annotations_split l).1 = l.take (splitIndex l.length) ∧
      (process_annotations_split l).2 = l.drop (splitIndex l.length)) ∧
    (l.length = 20 →
      (process_annotations_split l).1.length = 16 ∧
      (process_annotations_split l).2.length = 4 ∧
      ∀ x ∈ (process_annotations_split l).1,
        x ∉ (process_annotations_split l).2) := by
  refine ⟨?_, ?_, ?_⟩
  · intro h
    unfold process_annotations_split
    rw [if_pos h]
  · intro h
    refine ⟨splitIndex_intCast l.length, ?_, ?_⟩ <;>
      · unfold process_annotations_split
        rw [if_neg (by omega)]
  · intro h20
    have hcut : splitIndex l.length = 16 := by rw [h20]; exact splitIndex_twenty
    have hsplit : process_annotations_split l =
        (l.take 16, l.drop 16) := by
      unfold process_annotations_split
      rw [if_neg (by omega), hcut]
    refine ⟨?_, ?_, ?_⟩
    · rw [hsplit]; simp [List.length_take, h20]
    · rw [hsplit]; simp [List.length_drop, h20]
    · intro x hx
      rw [hsplit] at hx ⊢
      exact (List.disjoint_take_drop hnd (le_refl 16)) hx

/-- Witness for C3 at a concrete 20-element key list. -/
theorem dataset_split_correct_witness :
    (let l := (List.range 20).map (fun i => toString i)
     (l.length < 10 → process_annotations_split l = (l, l)) ∧
     (10 ≤ l.length →
       (splitIndex l.length : ℤ) = ⌊(l.length : ℚ) * TRAIN_SPLIT⌋ ∧
       (process_annotations_split l).1 = l.take (splitIndex l.length) ∧
       (process_annotations_split l).2 = l.drop (splitIndex l.length)) ∧
     (l.length = 20 →
       (process_annotations_split l).1.length = 16 ∧
       (process_annotations_split l).2.length = 4 ∧
       ∀ x ∈ (process_annotations_split l).1,
         x ∉ (process_annotations_split l).2)) :=
  dataset_split_correct _ (by decide) (by decide)

/-- Counterexample to C4 as stated: with 7 annotated images and no
background images the small-sample fallback puts the whole set into both
train and validation, so |train| + |val| = 14 while
|annotated| + |background| = 7. -/
theorem split_totals_not_conserved_below_ten :
    ¬ ((process_annotations_split ["i1", "i2", "i3", "i4", "i5", "i6", "i7"]).1.length
        + (copy_background_split ([] : List String)).1.length
        + ((process_annotations_split ["i1", "i2", "i3", "i4", "i5", "i6", "i7"]).2.length
            + (copy_background_split ([] : List String)).2.length)
        = (["i1", "i2", "i3", "i4", "i5", "i6", "i7"] : List String).length
            + ([] : List String).length) := by
  intro h
  simp [process_annotations_split, copy_background_split] at h

/-- C4 amended: when at least 10 images are annotated, the split conserves
totals — train plus validation counts (annotated and background together)
equal |annotated| + |background| — and every annotated image appears in
exactly one of the two splits.  (With fewer than 10 annotated images the
code deliberately uses the entire annotated set for both splits, so the
totals are not conserved there.) -/
theorem split_totals_conserved_from_ten (l bg : List String)
    (hnd : l.Nodup) (h10 : 10 ≤ l.length) :
    (process_annotations_split l).1.length + (copy_background_split bg).1.length
      + ((process_annotations_split l).2.length
          + (copy_background_split bg).2.length)
      = l.length + bg.length ∧
    ∀ x ∈ l,
      (x ∈ (process_annotations_split l).1 ∧ x ∉ (process_annotations_split l).2)
        ∨ (x ∈ (process_annotations_split l).2
            ∧ x ∉ (process_annotations_split l).1) := by
  have hsplit : process_annotations_split l =
      (l.take (splitIndex l.length), l.drop (splitIndex l.length)) := by
    unfold process_annotations_split
    rw [if_neg (by omega)]
  constructor
  · have h1 : (l.take (splitIndex l.length)).length
        + (l.drop (splitIndex l.length)).length = l.length := by
      rw [List.length_take, List.length_drop]
      have := splitIndex_le l.length
      omega
    have h2 : (bg.take (splitIndex bg.length)).length
        + (bg.drop (splitIndex bg.length)).length = bg.length := by
      rw [List.length_take, List.length_drop]
      have := splitIndex_le bg.length
      omega
    rw [hsplit]
    unfold copy_background_split
    dsimp only
    omega
  · intro x hx
    rw [hsplit]
    have hd := List.disjoint_take_drop hnd (le_refl (splitIndex l.length))
    rcases List.mem_append.mp
        (by rw [List.take_append_drop (splitIndex l.length) l]; exact hx :
          x ∈ l.take (splitIndex l.length) ++ l.drop (splitIndex l.length))
      with h | h
    · exact Or.inl ⟨h, fun hc => hd h hc⟩
    · exact Or.inr ⟨h, fun hc => hd hc h⟩

/-- Witness for the amended C4 at ten annotated keys and three background
images. -/
theorem split_totals_conserved_from_ten_witness :
    (let l := ["a0", "a1", "a2", "a3", "a4", "a5", "a6", "a7", "a8", "a9"]
     let bg := ["b0", "b1", "b2"]
     (process_annotations_split l).1.length + (copy_background_split bg).1.length
       + ((process_annotations_split l).2.length
           + (copy_background_split bg).2.length)
       = l.length + bg.length ∧
     ∀ x ∈ l,
       (x ∈ (process_annotations_split l).1 ∧ x ∉ (process_annotations_split l).2)
         ∨ (x ∈ (process_annotations_split l).2
             ∧ x ∉ (process_annotations_split l).1)) :=
  split_totals_conserved_from_ten _ _ (by decide) (by decide)

/-- Python `sep.join(parts)`. -/
def strJoin (sep : String) : List String → String
  | [] => ""
  | [x] => x
  | x :: y :: ys => x ++ sep ++ strJoin sep (y :: ys)

/-- The fixed 6-decimal rendering `f"{v:.6f}"` on the rational-modelled
value: round to the nearest multiple of 10⁻⁶ and print sign, integer part,
a dot, and exactly six fractional digits (zero-padded on the left). -/
def formatFixed6 (q : ℚ) : String :=
  let n : Int := round (q * 1000000)
  let sign := if n < 0 then "-" else ""
  let m := n.natAbs
  let frac := toString (m % 1000000)
  sign ++ toString (m / 1000000) ++ "."
    ++ String.mk (List.replicate (6 - frac.length) '0') ++ frac

/-- One label line of `create_yolo_labels` (source lines 580-589):
`f"{class_id} {x_center:.6f} {y_center:.6f} {width:.6f} {height:.6f}"` with
`x_center = (x1 + x2) / 2 / image_width`,
`y_center = (y1 + y2) / 2 / image_height`,
`width = (x2 - x1) / image_width`, `height = (y2 - y1) / image_height`. -/
def yoloLabelLine (b : BBox) (imageWidth imageHeight : ℚ) : String :=
  let xc := ((b.x1 : ℚ) + (b.x2 : ℚ)) / 2 / imageWidth
  let yc := ((b.y1 : ℚ) + (b.y2 : ℚ)) / 2 / imageHeight
  let w := ((b.x2 : ℚ) - (b.x1 : ℚ)) / imageWidth
  let h := ((b.y2 : ℚ) - (b.y1 : ℚ)) / imageHeight
  toString b.cls ++ " " ++ formatFixed6 xc ++ " " ++ formatFixed6 yc ++ " "
    ++ formatFixed6 w ++ " " ++ formatFixed6 h

/-- `create_yolo_labels` (source lines 577-591): one line per box in list
order, joined with `"\n"`, plus a final `"\n"`. -/
def create_yolo_labels (bboxes : List BBox) (imageWidth imageHeight : ℚ) :
    String :=
  strJoin "\n" (bboxes.map (fun b => yoloLabelLine b imageWidth imageHeight))
    ++ "\n"

/-- A label line exactly as the specification words it:
`classId centerX_norm centerY_norm width_norm height_norm`, space-separated,
each numeric field at fixed 6-decimal precision, with
`centerX_norm = (x1+x2)/(2*sourceWidth)`,
`centerY_norm = (y1+y2)/(2*sourceHeight)`,
`width_norm = (x2-x1)/sourceWidth`, `height_norm = (y2-y1)/sourceHeight`. -/
def specLabelLine (b : BBox) (sourceWidth sourceHeight : ℚ) : String :=
  toString b.cls ++ " "
    ++ formatFixed6 (((b.x1 : ℚ) + (b.x2 : ℚ)) / (2 * sourceWidth)) ++ " "
    ++ formatFixed6 (((b.y1 : ℚ) + (b.y2 : ℚ)) / (2 * sourceHeight)) ++ " "
    ++ formatFixed6 (((b.x2 : ℚ) - (b.x1 : ℚ)) / sourceWidth) ++ " "
    ++ formatFixed6 (((b.y2 : ℚ) - (b.y1 : ℚ)) / sourceHeight)

/-- The label file as the specification words it: the concatenation of one
such line per box, in creation order, each line terminated by a newline (so
a trailing newline ends the file). -/
def specLabelFile (bboxes : List BBox) (sourceWidth sourceHeight : ℚ) :
    String :=
  (bboxes.map (fun b => specLabelLine b sourceWidth sourceHeight ++ "\n")).foldr
    (fun a r => a ++ r) ""

theorem yoloLabelLine_eq_spec (b : BBox) (w h : ℚ) :
    yoloLabelLine b w h = specLabelLine b w h := by
  unfold yoloLabelLine specLabelLine
  rw [div_div, div_div]

theorem strJoin_newline_append (lines : List String) (hne : lines ≠ []) :
    strJoin "\n" lines ++ "\n"
      = (lines.map (fun l => l ++ "\n")).foldr (fun a r => a ++ r) "" := by
  induction lines with
  | nil => exact absurd rfl hne
  | cons x xs ih =>
    cases xs with
    | nil => simp [strJoin]
    | cons y ys =>
      have h2 := ih (by simp)
      simp only [List.map_cons, List.foldr_cons] at h2 ⊢
      rw [show strJoin "\n" (x :: y :: ys)
            = x ++ "\n" ++ strJoin "\n" (y :: ys) from rfl]
      rw [String.append_assoc, String.append_assoc, h2]
      rw [← String.append_assoc x "\n"]

/-- C5: for a non-empty box list, the emitted label text is exactly one line
per box in creation order, each line being
`classId centerX_norm centerY_norm width_norm height_norm` with the
normalizations `(x1+x2)/(2*w)`, `(y1+y2)/(2*h)`, `(x2-x1)/w`, `(y2-y1)/h`,
every numeric field rendered at fixed 6-decimal precision, and every line —
the last included — terminated by a newline. -/
theorem label_file_one_line_per_box (bboxes : List BBox) (w h : ℚ)
    (hne : bboxes ≠ []) :
    create_yolo_labels bboxes w h = specLabelFile bboxes w h := by
  unfold create_yolo_labels specLabelFile
  rw [strJoin_newline_append _ (by simpa using hne), List.map_map]
  simp only [Function.comp_def, yoloLabelLine_eq_spec]

/-- Witness for C5 at a concrete box on a 640×480 image. -/
theorem label_file_one_line_per_box_witness :
    create_yolo_labels [⟨10, 20, 110, 220, 640, 480, 2⟩] 640 480 =
      specLabelFile [⟨10, 20, 110, 220, 640, 480, 2⟩] 640 480 :=
  label_file_one_line_per_box _ _ _ (by decide)

/-- The JSON document universe written by `json.dump` and read back by
`json.load` for `annotations_multiclass.json`; the textual grammar layer of
JSON is standard and is modelled at the document level. -/
inductive Jval where
  | num (n : Int)
  | str (s : String)
  | arr (xs : List Jval)
  | obj (kvs : List (String × Jval))

/-- One box dict as it appears in the annotation file (source lines 392-400,
§6 of the file format): the seven integer fields in creation order. -/
def encodeBox (b : BBox) : Jval :=
  .obj [("x1", .num b.x1), ("y1", .num b.y1), ("x2", .num b.x2),
        ("y2", .num b.y2), ("width", .num b.width),
        ("height", .num b.height), ("class", .num b.cls)]

/-- `save_annotations` (source lines 229-235): `json.dump` of the whole
store — a JSON object keyed by image path, each value the array of that
image's box dicts, in store order. -/
def save_annotations_json (s : Store) : Jval :=
  .obj (s.map (fun kv => (kv.1, Jval.arr (kv.2.map encodeBox))))

/-- Python dict lookup on a parsed JSON object. -/
def jLookup (kvs : List (String × Jval)) (k : String) : Option Jval :=
  (kvs.find? (fun kv => kv.1 = k)).map (fun kv => kv.2)

/-- Reading an integer field of a parsed JSON value. -/
def asInt : Jval → Option Int
  | .num n => some n
  | _ => none

/-- Reading one box dict back, via the field accesses the program performs
(`bbox['x1']` … `bbox['class']`, source lines 316, 335-340, 581-582);
`none` models a shape mismatch. -/
def decodeBox : Jval → Option BBox
  | .obj kvs => do
    let x1 ← (jLookup kvs "x1").bind asInt
    let y1 ← (jLookup kvs "y1").bind asInt
    let x2 ← (jLookup kvs "x2").bind asInt
    let y2 ← (jLookup kvs "y2").bind asInt
    let w ← (jLookup kvs "width").bind asInt
    let h ← (jLookup kvs "height").bind asInt
    let c ← (jLookup kvs "class").bind asInt
    pure ⟨x1, y1, x2, y2, w, h, c⟩
  | _ => none

/-- Reading an image's box array back. -/
def decodeBoxes : Jval → Option (List BBox)
  | .arr xs => xs.mapM decodeBox
  | _ => none

/-- `load_existing_annotations` (source lines 521-528): `json.load` of the
annotation file, interpreted back into the store shape. -/
def load_annotations_json : Jval → Option Store
  | .obj kvs =>
    kvs.mapM (fun kv => (decodeBoxes kv.2).map (fun bs => (kv.1, bs)))
  | _ => none

theorem decodeBox_encodeBox (b : BBox) : decodeBox (encodeBox b) = some b :=
  rfl

theorem mapM_decodeBox_encode (bs : List BBox) :
    (bs.map encodeBox).mapM decodeBox = some bs := by
  induction bs with
  | nil => rfl
  | cons b t ih =>
    rw [List.map_cons, List.mapM_cons, decodeBox_encodeBox, ih]
    rfl

theorem mapM_entry_encode (s : Store) :
    (s.map (fun kv => (kv.1, Jval.arr (kv.2.map encodeBox)))).mapM
      (fun kv => Option.map (fun bs => (kv.1, bs)) (decodeBoxes kv.2))
      = some s := by
  induction s with
  | nil => rfl
  | cons kv t ih =>
    rw [List.map_cons, List.mapM_cons, ih]
    simp only [decodeBoxes, mapM_decodeBox_encode]
    rfl

/-- C7: saving any annotation store to the JSON document and loading it back
recovers exactly the original mapping — same keys in the same order, each
with its original box list. -/
theorem save_load_round_trip (s : Store) :
    load_annotations_json (save_annotations_json s) = some s :=
  mapM_entry_encode s

/-- The class ids of the `CLASSES` table (source lines 44-48) in the
ascending order produced by `sorted(CLASSES.keys())` (lines 244, 482). -/
def classKeys : List Nat := [0, 1, 2]

/-- The session cursor: `self.current_class`, `self.current_index`.
The per-class unannotated image lists are fixed at session start
(source lines 61-72) and never re-scanned, so the navigator sees them as a
static count `env : class id → number of images`. -/
structure NavState where
  currentClass : Nat
  currentIndex : Nat
deriving DecidableEq, Repr

/-- The scan of `next_image` and `load_image` (source lines 481-485,
243-247): the first class id, in ascending order, strictly greater than the
current one with a non-empty unannotated list. -/
def nextClassAfter (env : Nat → Nat) (c : Nat) : Option Nat :=
  classKeys.find? (fun k => decide (c < k) && decide (0 < env k))

/-- `switch_class` (source lines 209-219): jump to index 0 of the target
class when it still has images, otherwise report "class complete" and leave
the cursor unchanged. -/
def switch_class (env : Nat → Nat) (c : Nat) (s : NavState) : NavState :=
  if env c = 0 then s else { currentClass := c, currentIndex := 0 }

/-- `next_image` (source lines 473-493): advance the within-class index
while `current_index < len(images) - 1`; otherwise scan ascending class ids
strictly greater than the current one and switch to the first with remaining
images, or stay put when none exists. -/
def next_image (env : Nat → Nat) (s : NavState) : NavState :=
  if s.currentIndex < env s.currentClass - 1 then
    { s with currentIndex := s.currentIndex + 1 }
  else
    match nextClassAfter env s.currentClass with
    | some c => switch_class env c s
    | none => s

/-- A sequence of `n` consecutive `next_image` transitions. -/
def iterateNext (env : Nat → Nat) : Nat → NavState → NavState
  | 0, s => s
  | n + 1, s => iterateNext env n (next_image env s)

theorem nextClassAfter_gt {env : Nat → Nat} {c k : Nat}
    (h : nextClassAfter env c = some k) : c < k ∧ 0 < env k := by
  unfold nextClassAfter at h
  have := List.find?_some h
  simpa using this

theorem find?_first_of_sorted {p : Nat → Bool} {l : List Nat} {k : Nat}
    (hsort : l.Pairwise (· ≤ ·)) (h : l.find? p = some k) :
    ∀ j ∈ l, p j = true → k ≤ j := by
  induction l with
  | nil => simp at h
  | cons x xs ih =>
    rw [List.find?_cons] at h
    rcases List.pairwise_cons.mp hsort with ⟨hx, hxs⟩
    intro j hj hpj
    by_cases hpx : p x
    · simp only [hpx, Option.some.injEq] at h
      rcases List.mem_cons.mp hj with rfl | hj'
      · omega
      · exact h ▸ hx j hj'
    · simp only [Bool.not_eq_true] at hpx
      simp only [hpx] at h
      rcases List.mem_cons.mp hj with rfl | hj'
      · rw [hpj] at hpx; cases hpx
      · exact ih hxs h j hj' hpj

theorem next_image_class_le (env : Nat → Nat) (s : NavState) :
    s.currentClass ≤ (next_image env s).currentClass := by
  unfold next_image
  by_cases h1 : s.currentIndex < env s.currentClass - 1
  · rw [if_pos h1]
  · rw [if_neg h1]
    cases hc : nextClassAfter env s.currentClass with
    | none => exact le_refl _
    | some c =>
      show s.currentClass ≤ (switch_class env c s).currentClass
      unfold switch_class
      by_cases h2 : env c = 0
      · rw [if_pos h2]
      · rw [if_neg h2]
        exact le_of_lt (nextClassAfter_gt hc).1

/-- C8: under any number of `next()` transitions the current class id never
decreases, and whenever the within-class scan hands over to another class,
the chosen class is strictly greater than the current one, has remaining
unannotated images, and is the least such class id — the scan never returns
to an earlier class. -/
theorem navigator_class_monotone (env : Nat → Nat) (s : NavState) (n : Nat) :
    s.currentClass ≤ (iterateNext env n s).currentClass ∧
    (∀ k, nextClassAfter env s.currentClass = some k →
      s.currentClass < k ∧ 0 < env k ∧
      ∀ j ∈ classKeys, s.currentClass < j → 0 < env j → k ≤ j) := by
  constructor
  · induction n generalizing s with
    | zero => exact le_refl _
    | succ m ih =>
      exact le_trans (next_image_class_le env s) (ih (next_image env s))
  · intro k hk
    refine ⟨(nextClassAfter_gt hk).1, (nextClassAfter_gt hk).2, ?_⟩
    intro j hj hcj hej
    refine find?_first_of_sorted (by decide) hk j hj ?_
    simp [hcj, hej]

/-- Witness for C8 at a concrete environment and three steps. -/
theorem navigator_class_monotone_witness :
    (⟨0, 0⟩ : NavState).currentClass
        ≤ (iterateNext (fun c => c) 3 ⟨0, 0⟩).currentClass ∧
    (∀ k, nextClassAfter (fun c => c) (⟨0, 0⟩ : NavState).currentClass
        = some k →
      (⟨0, 0⟩ : NavState).currentClass < k ∧ 0 < (fun c => c) k ∧
      ∀ j ∈ classKeys, (⟨0, 0⟩ : NavState).currentClass < j →
        0 < (fun c => c) j → k ≤ j) :=
  navigator_class_monotone (fun c => c) ⟨0, 0⟩ 3
